import Mathlib

/-!
Verification of the `backoff` package: iterators over retry back-off policies.

Durations are modelled as `Int` nanoseconds (Go's `time.Duration`).
The package's own code (option handling, the policy constructors `NewConstant`
and `NewExponential`, and the two iteration layers) is embedded from the
source.  The underlying strategy engine (`StopBackOff`, `ZeroBackOff`,
`ConstantBackOff`, `ExponentialBackOff`, the retry-count limiter, and the
retry loop with its cancellable wait) lives in the external back-off library
and is modelled from the specification.  Randomness (jitter) and wall-clock
elapsed time are surfaced as explicit input streams.
-/

namespace Backoff

/-- The sentinel duration meaning "stop retrying" (`backoff.Stop = -1`). -/
def Stop : Int := -1

/-- Parameters of an exponential back-off policy, mirroring the fields of the
exponential policy configuration (`InitialInterval`, `RandomizationFactor`,
`Multiplier`, `MaxInterval`, `MaxElapsedTime`, the alternative stop-after
ceiling `StopDuration`, and a clock identifier). -/
structure ExpParams where
  InitialInterval : Int
  RandomizationFactor : ℚ
  Multiplier : ℚ
  MaxInterval : Int
  MaxElapsedTime : Int
  StopDuration : Int
  Clock : Nat
deriving DecidableEq, Repr

/-- Modelled from the spec: the defaults of the underlying exponential
back-off formula ("all fields have defaults"; the spec's concrete scenario
fixes the default multiplier at 1.5; the remaining numbers are the library
defaults: initial interval 500ms, randomization factor 0.5, max interval 60s,
max elapsed time 15min, stop-after unset). -/
def defaultExpParams : ExpParams where
  InitialInterval := 500000000
  RandomizationFactor := 1/2
  Multiplier := 3/2
  MaxInterval := 60000000000
  MaxElapsedTime := 900000000000
  StopDuration := Stop
  Clock := 0

/-- The recognized exponential configuration setters (the payloads of
`WithInitialInterval`, `WithRandomizationFactor`, `WithMultiplier`,
`WithMaxInterval`, `WithMaxElapsedTime`, `WithRetryStopDuration`,
`WithClockProvider`).  A clock is identified by a number. -/
inductive ExpOpts where
  | withInitialInterval (d : Int)
  | withRandomizationFactor (v : ℚ)
  | withMultiplier (v : ℚ)
  | withMaxInterval (d : Int)
  | withMaxElapsedTime (d : Int)
  | withRetryStopDuration (d : Int)
  | withClockProvider (c : Nat)
deriving DecidableEq, Repr

/-- Modelled from the spec: each recognized option overwrites one field of
the exponential parameter set. -/
def ExpOpts.apply : ExpOpts → ExpParams → ExpParams
  | .withInitialInterval d, p => { p with InitialInterval := d }
  | .withRandomizationFactor v, p => { p with RandomizationFactor := v }
  | .withMultiplier v, p => { p with Multiplier := v }
  | .withMaxInterval d, p => { p with MaxInterval := d }
  | .withMaxElapsedTime d, p => { p with MaxElapsedTime := d }
  | .withRetryStopDuration d, p => { p with StopDuration := d }
  | .withClockProvider c, p => { p with Clock := c }

/-- Modelled from the spec: building an exponential back-off policy applies
the given setters, in order, to the defaults. -/
def NewExponentialBackOff (opts : List ExpOpts) : ExpParams :=
  opts.foldl (fun p o => o.apply p) defaultExpParams

/-- The mutable state of a running exponential strategy instance: its policy
parameters, the current interval, and the one-way elapsed-time latch. -/
structure ExponentialBackOff where
  params : ExpParams
  currentInterval : Int
  exhausted : Bool
deriving DecidableEq, Repr

/-- A fresh exponential strategy instance: the current interval starts at the
initial interval and the elapsed-time latch is open. -/
def ExponentialBackOff.ofParams (p : ExpParams) : ExponentialBackOff :=
  { params := p, currentInterval := p.InitialInterval, exhausted := false }

/-- Modelled from the spec: the jittered value is the current interval scaled
by a factor in `[1 - rf, 1 + rf]` (here `r ∈ [-1, 1]` selects the point in
the range), clamped to `[0, maxInterval]` when `maxInterval > 0`. -/
def jitteredInterval (rf r : ℚ) (ci maxI : Int) : Int :=
  let v : Int := ⌊(ci : ℚ) * (1 + rf * r)⌋
  if 0 < maxI then max 0 (min v maxI) else v

/-- Modelled from the spec: after computing a value, the strategy sets
`currentInterval := min (currentInterval * multiplier) maxInterval`
(unbounded when no max interval is set). -/
def ExponentialBackOff.incrementCurrentInterval (b : ExponentialBackOff) :
    ExponentialBackOff :=
  let nextCI : Int := ⌊(b.currentInterval : ℚ) * b.params.Multiplier⌋
  { b with currentInterval :=
      if 0 < b.params.MaxInterval then min nextCI b.params.MaxInterval else nextCI }

/-- Modelled from the spec: one step of the exponential strategy.  `elapsed`
is the wall-clock time since the instance was created (supplied by the
configured clock) and `r` the jitter draw for this step.  The elapsed-time
check against `MaxElapsedTime` / the stop-after ceiling happens before the
computed delay is returned, and exceeding it is a one-way latch: every later
call also returns `Stop`. -/
def ExponentialBackOff.next (b : ExponentialBackOff) (elapsed : Int) (r : ℚ) :
    Int × ExponentialBackOff :=
  if b.exhausted then (Stop, b)
  else
    let v := jitteredInterval b.params.RandomizationFactor r b.currentInterval
      b.params.MaxInterval
    let b2 := b.incrementCurrentInterval
    if (b.params.MaxElapsedTime ≠ 0 ∧ b.params.MaxElapsedTime ≤ elapsed) ∨
        (b.params.StopDuration ≠ Stop ∧ b.params.StopDuration ≤ elapsed) then
      (Stop, { b2 with exhausted := true })
    else (v, b2)

/-- A strategy instance: one of the four policies, or a policy wrapped by the
retry-count limiter (which carries its cap and its call counter). -/
inductive BackOff where
  | stopBackOff
  | zeroBackOff
  | constantBackOff (interval : Int)
  | exponential (b : ExponentialBackOff)
  | withMaxRetries (delegate : BackOff) (maxTries numTries : Nat)
deriving DecidableEq, Repr

/-- Modelled from the spec: the single "compute next interval" operation.
`stopBackOff` always answers `Stop`; `zeroBackOff` always `0`;
`constantBackOff d` always `d`; the exponential strategy steps as above; the
retry-count limiter with a positive cap forces `Stop` once its counter
reaches the cap and otherwise counts the call and delegates, while a zero cap
is a pass-through. -/
def BackOff.nextBackOff : BackOff → Int → ℚ → Int × BackOff
  | .stopBackOff, _, _ => (Stop, .stopBackOff)
  | .zeroBackOff, _, _ => (0, .zeroBackOff)
  | .constantBackOff d, _, _ => (d, .constantBackOff d)
  | .exponential b, e, r =>
    let s := b.next e r
    (s.1, .exponential s.2)
  | .withMaxRetries b maxT numT, e, r =>
    if 0 < maxT then
      if maxT ≤ numT then (Stop, .withMaxRetries b maxT numT)
      else
        let s := b.nextBackOff e r
        (s.1, .withMaxRetries s.2 maxT (numT + 1))
    else
      let s := b.nextBackOff e r
      (s.1, .withMaxRetries s.2 maxT numT)

/-- The constant-policy configuration (`constantOption` in the source). -/
structure constantOption where
  MaxRetries : Nat
  Interval : Int
deriving DecidableEq, Repr

/-- The options accepted by the constant constructor; the only one the
package defines is the max-retry count (`WithMaxRetries`). -/
inductive ConstantOption where
  | maxRetries (n : Nat)
deriving DecidableEq, Repr

/-- `maxRetries.applyToConstantOption`: sets the `MaxRetries` field. -/
def ConstantOption.applyToConstantOption :
    ConstantOption → constantOption → constantOption
  | .maxRetries n, co => { co with MaxRetries := n }

/-- `newConstantOption`: start from the given interval (max retries zero) and
apply the options in order. -/
def newConstantOption (interval : Int) (options : List ConstantOption) :
    constantOption :=
  options.foldl (fun co o => o.applyToConstantOption co)
    { MaxRetries := 0, Interval := interval }

/-- `constantOption.New`: a negative interval selects the never-retry
strategy (returned immediately, without the limiter); zero selects the
no-delay strategy and a positive interval the fixed-delay strategy, each
wrapped by the retry-count limiter only when `MaxRetries > 0`. -/
def constantOption.New (co : constantOption) : BackOff :=
  if co.Interval < 0 then .stopBackOff
  else
    let b := if co.Interval = 0 then .zeroBackOff else .constantBackOff co.Interval
    if 0 < co.MaxRetries then .withMaxRetries b co.MaxRetries 0 else b

/-- The exponential-policy configuration (`exponentialOption` in the source):
a list of collected setters plus the max-retry count. -/
structure exponentialOption where
  Options : List ExpOpts
  MaxRetries : Nat
deriving DecidableEq, Repr

/-- The options accepted by the exponential constructor: any of the setters
(appended to the list) or the max-retry count. -/
inductive ExponentialOption where
  | opts (o : ExpOpts)
  | maxRetries (n : Nat)
deriving DecidableEq, Repr

/-- `applyToExponentialOption`: a setter is appended to the `Options` list; a
max-retry count overwrites the `MaxRetries` field. -/
def ExponentialOption.applyToExponentialOption :
    ExponentialOption → exponentialOption → exponentialOption
  | .opts o, eo => { eo with Options := eo.Options ++ [o] }
  | .maxRetries n, eo => { eo with MaxRetries := n }

/-- `newExponentialOption`: start from the empty configuration and apply the
options in order. -/
def newExponentialOption (options : List ExponentialOption) :
    exponentialOption :=
  options.foldl (fun eo o => o.applyToExponentialOption eo)
    { Options := [], MaxRetries := 0 }

/-- `exponentialOption.New`: build the exponential strategy from the
collected setters, wrapped by the retry-count limiter only when
`MaxRetries > 0`. -/
def exponentialOption.New (eo : exponentialOption) : BackOff :=
  let b := BackOff.exponential (ExponentialBackOff.ofParams
    (NewExponentialBackOff eo.Options))
  if 0 < eo.MaxRetries then .withMaxRetries b eo.MaxRetries 0 else b

/-- `NewConstant`: the fresh strategy instance each attempt-index iteration
starts from. -/
def NewConstant (interval : Int) (options : List ConstantOption) : BackOff :=
  (newConstantOption interval options).New

/-- `NewExponential`: the fresh strategy instance each attempt-index
iteration starts from. -/
def NewExponential (options : List ExponentialOption) : BackOff :=
  (newExponentialOption options).New

/-- `NewConstantDuration`: the fresh strategy instance each duration-mode
iteration starts from. -/
def NewConstantDuration (interval : Int) (options : List ConstantOption) :
    BackOff :=
  (newConstantOption interval options).New

/-- `NewExponentialDuration`: the fresh strategy instance each duration-mode
iteration starts from. -/
def NewExponentialDuration (options : List ExponentialOption) : BackOff :=
  (newExponentialOption options).New

/-- Observable events of one attempt-index iteration: an index handed to the
consumer, a delay computed by the strategy, a completed suspension of the
given duration, and a suspension aborted by the cancellation signal. -/
inductive Event where
  | yield (i : Nat)
  | next (d : Int)
  | wait (d : Int)
  | cancelledWait
deriving DecidableEq, Repr

/-- Modelled from the spec: the attempt-index retry loop
(`yield idx → {consumer-stop → END | compute-delay →
(stop-signal → END | wait → (cancel → END | timeout → increment, loop))}`).
`consume i` is whether the consumer wants more after receiving `i`;
`cancel k` is whether the external signal fires during the suspension that
precedes index `k`; `elapsed` and `jitter` feed the strategy.  Runs are
fuel-bounded; the Boolean records whether the loop ended on its own (`true`)
rather than by running out of fuel (`false`). -/
def retryLoop (elapsed : Nat → Int) (jitter : Nat → ℚ) (consume : Nat → Bool)
    (cancel : Nat → Bool) : Nat → Nat → BackOff → List Event × Bool
  | 0, _, _ => ([], false)
  | fuel + 1, i, b =>
    if consume i then
      let s := b.nextBackOff (elapsed i) (jitter i)
      if s.1 = Stop then ([.yield i, .next s.1], true)
      else if cancel (i + 1) then ([.yield i, .next s.1, .cancelledWait], true)
      else
        let t := retryLoop elapsed jitter consume cancel fuel (i + 1) s.2
        (.yield i :: .next s.1 :: .wait s.1 :: t.1, t.2)
    else ([.yield i], true)

/-- The duration-mode loop (`newBackOffDuration`): compute the delay first;
on `Stop` end before yielding; otherwise yield the `(index, duration)` pair
and continue unless the consumer declines.  Fuel-bounded as above. -/
def runDuration (elapsed : Nat → Int) (jitter : Nat → ℚ)
    (consume : Nat → Int → Bool) :
    Nat → Nat → BackOff → List (Nat × Int) × Bool
  | 0, _, _ => ([], false)
  | fuel + 1, i, b =>
    let s := b.nextBackOff (elapsed i) (jitter i)
    if s.1 = Stop then ([], true)
    else if consume i s.1 then
      let t := runDuration elapsed jitter consume fuel (i + 1) s.2
      ((i, s.1) :: t.1, t.2)
    else ([(i, s.1)], true)

/-- The indices a trace handed to the consumer. -/
def yieldsOf (l : List Event) : List Nat :=
  l.filterMap fun e => match e with | .yield i => some i | _ => none

/-- The durations of the completed suspensions of a trace. -/
def waitsOf (l : List Event) : List Int :=
  l.filterMap fun e => match e with | .wait d => some d | _ => none

/-- The delays the strategy computed along a trace. -/
def nextsOf (l : List Event) : List Int :=
  l.filterMap fun e => match e with | .next d => some d | _ => none

/-- A consumer that never stops the attempt-index iteration. -/
def alwaysConsume : Nat → Bool := fun _ => true

/-- A cancellation signal that never fires. -/
def neverCancel : Nat → Bool := fun _ => false

/-- An elapsed-time stream that stays at zero (instant draining). -/
def zeroElapsed : Nat → Int := fun _ => 0

/-- A jitter stream that always draws the midpoint. -/
def zeroJitter : Nat → ℚ := fun _ => 0

/-- A duration-mode consumer that never stops. -/
def takeAll : Nat → Int → Bool := fun _ _ => true

/-- The strategy state after `n` next-interval calls of a run that started at
loop index `i` (call `k` of the run uses the streams at index `i + k`). -/
def iterFrom (elapsed : Nat → Int) (jitter : Nat → ℚ) (i : Nat) (b : BackOff) :
    Nat → BackOff
  | 0 => b
  | n + 1 =>
    ((iterFrom elapsed jitter i b n).nextBackOff (elapsed (i + n))
      (jitter (i + n))).2

/-- The delay computed by the `n`-th next-interval call of a run that started
at loop index `i`. -/
def delayFrom (elapsed : Nat → Int) (jitter : Nat → ℚ) (i : Nat) (b : BackOff)
    (n : Nat) : Int :=
  ((iterFrom elapsed jitter i b n).nextBackOff (elapsed (i + n))
    (jitter (i + n))).1

/-- The full trace of an attempt-index run whose consumer stops right after
the last of `m + 1` yields: `m` blocks of yield/compute/wait and a final
yield. -/
def stopTrace (elapsed : Nat → Int) (jitter : Nat → ℚ) :
    Nat → Nat → BackOff → List Event
  | 0, i, _ => [.yield i]
  | m + 1, i, b =>
    let s := b.nextBackOff (elapsed i) (jitter i)
    .yield i :: .next s.1 :: .wait s.1 :: stopTrace elapsed jitter m (i + 1) s.2

/-- Whether two exponential setters target the same configuration field. -/
def sameExpField : ExpOpts → ExpOpts → Bool
  | .withInitialInterval _, .withInitialInterval _ => true
  | .withRandomizationFactor _, .withRandomizationFactor _ => true
  | .withMultiplier _, .withMultiplier _ => true
  | .withMaxInterval _, .withMaxInterval _ => true
  | .withMaxElapsedTime _, .withMaxElapsedTime _ => true
  | .withRetryStopDuration _, .withRetryStopDuration _ => true
  | .withClockProvider _, .withClockProvider _ => true
  | _, _ => false

/-- Whether two exponential-constructor options set the same field. -/
def sameField : ExponentialOption → ExponentialOption → Bool
  | .opts a, .opts b => sameExpField a b
  | .maxRetries _, .maxRetries _ => true
  | _, _ => false

lemma foldl_applyToConstantOption_Interval (opts : List ConstantOption)
    (co : constantOption) :
    (opts.foldl (fun co o => o.applyToConstantOption co) co).Interval =
      co.Interval := by
  induction opts generalizing co with
  | nil => rfl
  | cons o rest ih =>
    cases o with
    | maxRetries n => simpa using ih _

lemma newConstantOption_Interval (interval : Int)
    (opts : List ConstantOption) :
    (newConstantOption interval opts).Interval = interval := by
  simpa [newConstantOption] using
    foldl_applyToConstantOption_Interval opts { MaxRetries := 0, Interval := interval }

lemma constantOption_New_of_neg (co : constantOption) (h : co.Interval < 0) :
    co.New = .stopBackOff := by
  simp [constantOption.New, h]

lemma iterFrom_succ_shift (elapsed : Nat → Int) (jitter : Nat → ℚ) (i : Nat)
    (b : BackOff) (n : Nat) :
    iterFrom elapsed jitter i b (n + 1) =
      iterFrom elapsed jitter (i + 1) ((b.nextBackOff (elapsed i) (jitter i)).2)
        n := by
  induction n with
  | zero => simp [iterFrom]
  | succ n ih =>
    rw [iterFrom, ih, iterFrom, show i + (n + 1) = i + 1 + n from by omega]

lemma delayFrom_succ_shift (elapsed : Nat → Int) (jitter : Nat → ℚ) (i : Nat)
    (b : BackOff) (n : Nat) :
    delayFrom elapsed jitter i b (n + 1) =
      delayFrom elapsed jitter (i + 1) ((b.nextBackOff (elapsed i) (jitter i)).2)
        n := by
  rw [delayFrom, delayFrom, iterFrom_succ_shift,
    show i + (n + 1) = i + 1 + n from by omega]

lemma retryLoop_selfLoop (d : Int) (b : BackOff) (E : Nat → Int) (J : Nat → ℚ)
    (hself : ∀ e r, b.nextBackOff e r = (d, b)) (hd : d ≠ Stop) :
    ∀ fuel i, ∃ tr,
      retryLoop E J alwaysConsume neverCancel fuel i b = (tr, false) ∧
        yieldsOf tr = List.range' i fuel := by
  intro fuel
  induction fuel with
  | zero => exact fun i => ⟨[], rfl, rfl⟩
  | succ fuel ih =>
    intro i
    obtain ⟨tr, htr, hy⟩ := ih (i + 1)
    refine ⟨.yield i :: .next d :: .wait d :: tr, ?_, ?_⟩
    · rw [retryLoop]
      simp [alwaysConsume, neverCancel, hself, hd, htr]
    · simp [yieldsOf, List.range'_succ] at hy ⊢
      simpa [yieldsOf] using hy

lemma retryLoop_yields_consecutive (E : Nat → Int) (J : Nat → ℚ)
    (c cc : Nat → Bool) :
    ∀ fuel i b, ∃ n,
      yieldsOf (retryLoop E J c cc fuel i b).1 = List.range' i n := by
  intro fuel
  induction fuel with
  | zero => exact fun i b => ⟨0, rfl⟩
  | succ fuel ih =>
    intro i b
    rw [retryLoop]
    by_cases hc : c i
    · by_cases hs : (b.nextBackOff (E i) (J i)).1 = Stop
      · exact ⟨1, by simp [hc, hs, yieldsOf]⟩
      · by_cases hcc : cc (i + 1)
        · exact ⟨1, by simp [hc, hs, hcc, yieldsOf]⟩
        · obtain ⟨n, hn⟩ := ih (i + 1) (b.nextBackOff (E i) (J i)).2
          refine ⟨n + 1, ?_⟩
          simp [hc, hs, hcc, yieldsOf, List.range'_succ]
          simpa [yieldsOf] using hn
    · exact ⟨1, by simp [hc, yieldsOf]⟩

lemma retryLoop_zeroTries (E : Nat → Int) (J : Nat → ℚ) (N : Nat)
    (hN : 0 < N) :
    ∀ m num i, num + m = N →
      ∃ tr, retryLoop E J alwaysConsume neverCancel (m + 1) i
          (.withMaxRetries .zeroBackOff N num) = (tr, true) ∧
        yieldsOf tr = List.range' i (m + 1) ∧
        waitsOf tr = List.replicate m 0 := by
  intro m
  induction m with
  | zero =>
    intro num i h
    have hle : N ≤ num := by omega
    refine ⟨[.yield i, .next Stop], ?_, ?_, ?_⟩
    · rw [retryLoop]
      simp [alwaysConsume, BackOff.nextBackOff, hN, hle]
    · simp [yieldsOf]
    · simp [waitsOf]
  | succ m ih =>
    intro num i h
    have hlt : ¬ N ≤ num := by omega
    obtain ⟨tr, htr, hy, hw⟩ := ih (num + 1) (i + 1) (by omega)
    refine ⟨.yield i :: .next 0 :: .wait 0 :: tr, ?_, ?_, ?_⟩
    · rw [retryLoop]
      simp [alwaysConsume, neverCancel, BackOff.nextBackOff, hN, hlt, Stop, htr]
    · simp [yieldsOf, List.range'_succ]
      simpa [yieldsOf] using hy
    · simp [waitsOf, List.replicate_succ]
      simpa [waitsOf] using hw

lemma retryLoop_stopConsumer (E : Nat → Int) (J : Nat → ℚ) :
    ∀ m i b, (∀ n < m, delayFrom E J i b n ≠ Stop) →
      retryLoop E J (fun k => decide (k < i + m)) neverCancel (m + 1) i b =
        (stopTrace E J m i b, true) := by
  intro m
  induction m with
  | zero =>
    intro i b _
    rw [retryLoop]
    simp [stopTrace]
  | succ m ih =>
    intro i b h
    have h0 : (b.nextBackOff (E i) (J i)).1 ≠ Stop := by
      simpa [delayFrom, iterFrom] using h 0 (by omega)
    have hhyp : ∀ n < m,
        delayFrom E J (i + 1) ((b.nextBackOff (E i) (J i)).2) n ≠ Stop := by
      intro n hn
      rw [← delayFrom_succ_shift]
      exact h (n + 1) (by omega)
    simp only [show i + (m + 1) = (i + 1) + m from by omega]
    rw [retryLoop, stopTrace]
    have hc : i < i + 1 + m := by omega
    simp [hc, h0, neverCancel, ih (i + 1) _ hhyp]

lemma yieldsOf_stopTrace (E : Nat → Int) (J : Nat → ℚ) :
    ∀ m i b, yieldsOf (stopTrace E J m i b) = List.range' i (m + 1) := by
  intro m
  induction m with
  | zero => intro i b; simp [stopTrace, yieldsOf]
  | succ m ih =>
    intro i b
    rw [stopTrace]
    simp [yieldsOf, List.range'_succ]
    simpa [yieldsOf] using ih (i + 1) (b.nextBackOff (E i) (J i)).2

lemma nextsOf_stopTrace_length (E : Nat → Int) (J : Nat → ℚ) :
    ∀ m i b, (nextsOf (stopTrace E J m i b)).length = m := by
  intro m
  induction m with
  | zero => intro i b; simp [stopTrace, nextsOf]
  | succ m ih =>
    intro i b
    rw [stopTrace]
    simp [nextsOf]
    simpa [nextsOf] using ih (i + 1) (b.nextBackOff (E i) (J i)).2

lemma waitsOf_stopTrace_length (E : Nat → Int) (J : Nat → ℚ) :
    ∀ m i b, (waitsOf (stopTrace E J m i b)).length = m := by
  intro m
  induction m with
  | zero => intro i b; simp [stopTrace, waitsOf]
  | succ m ih =>
    intro i b
    rw [stopTrace]
    simp [waitsOf]
    simpa [waitsOf] using ih (i + 1) (b.nextBackOff (E i) (J i)).2

lemma retryLoop_cancelAt (E : Nat → Int) (J : Nat → ℚ) :
    ∀ m i b, (∀ n < m + 1, delayFrom E J i b n ≠ Stop) →
      ∃ tr, retryLoop E J alwaysConsume (fun n => decide (n = i + (m + 1)))
          (m + 1) i b = (tr, true) ∧
        yieldsOf tr = List.range' i (m + 1) := by
  intro m
  induction m with
  | zero =>
    intro i b h
    have h0 : (b.nextBackOff (E i) (J i)).1 ≠ Stop := by
      simpa [delayFrom, iterFrom] using h 0 (by omega)
    refine ⟨[.yield i, .next (b.nextBackOff (E i) (J i)).1, .cancelledWait],
      ?_, ?_⟩
    · rw [retryLoop]
      simp [alwaysConsume, h0]
    · simp [yieldsOf]
  | succ m ih =>
    intro i b h
    have h0 : (b.nextBackOff (E i) (J i)).1 ≠ Stop := by
      simpa [delayFrom, iterFrom] using h 0 (by omega)
    have hhyp : ∀ n < m + 1,
        delayFrom E J (i + 1) ((b.nextBackOff (E i) (J i)).2) n ≠ Stop := by
      intro n hn
      rw [← delayFrom_succ_shift]
      exact h (n + 1) (by omega)
    obtain ⟨tr, htr, hy⟩ := ih (i + 1) ((b.nextBackOff (E i) (J i)).2) hhyp
    refine ⟨.yield i :: .next (b.nextBackOff (E i) (J i)).1 ::
      .wait (b.nextBackOff (E i) (J i)).1 :: tr, ?_, ?_⟩
    · simp only [show i + (m + 1 + 1) = (i + 1) + (m + 1) from by omega]
      rw [retryLoop]
      have hne : ¬ (i + 1 = i + 1 + (m + 1)) := by omega
      simp [alwaysConsume, h0, hne, htr]
    · simp [yieldsOf, List.range'_succ]
      simpa [yieldsOf] using hy

lemma constantOption_New_passthrough (interval : Int)
    (opts : List ConstantOption)
    (h : (newConstantOption interval opts).MaxRetries = 0) :
    (newConstantOption interval opts).New =
      (if interval < 0 then .stopBackOff
       else if interval = 0 then .zeroBackOff
       else .constantBackOff interval) := by
  simp [constantOption.New, newConstantOption_Interval, h]

lemma exponentialOption_New_passthrough (opts : List ExponentialOption)
    (h : (newExponentialOption opts).MaxRetries = 0) :
    (newExponentialOption opts).New =
      .exponential (ExponentialBackOff.ofParams
        (NewExponentialBackOff (newExponentialOption opts).Options)) := by
  simp [exponentialOption.New, h]

lemma constant_passthrough_unbounded (interval : Int)
    (opts : List ConstantOption) (E : Nat → Int) (J : Nat → ℚ) (n : Nat)
    (h0 : 0 ≤ interval)
    (h : (newConstantOption interval opts).MaxRetries = 0) :
    ∃ tr, retryLoop E J alwaysConsume neverCancel n 0
        ((newConstantOption interval opts).New) = (tr, false) ∧
      yieldsOf tr = List.range n := by
  rw [constantOption_New_passthrough interval opts h]
  rcases eq_or_lt_of_le h0 with heq | hlt
  · obtain ⟨tr, htr, hy⟩ := retryLoop_selfLoop 0 .zeroBackOff E J
      (fun _ _ => rfl) (by decide) n 0
    refine ⟨tr, ?_, by rw [hy, List.range_eq_range']⟩
    rw [if_neg (by omega), if_pos (by omega)]
    exact htr
  · obtain ⟨tr, htr, hy⟩ := retryLoop_selfLoop interval
      (.constantBackOff interval) E J (fun _ _ => rfl)
      (by simp only [Stop]; omega) n 0
    refine ⟨tr, ?_, by rw [hy, List.range_eq_range']⟩
    rw [if_neg (by omega), if_neg (by omega)]
    exact htr

lemma newConstantOption_lastWins (interval : Int) (o1 o2 : ConstantOption) :
    newConstantOption interval [o1, o2] = newConstantOption interval [o2] := by
  cases o1
  cases o2
  rfl

lemma newExponentialOption_New_lastWins (o1 o2 : ExponentialOption)
    (h : sameField o1 o2 = true) :
    (newExponentialOption [o1, o2]).New = (newExponentialOption [o2]).New := by
  cases o1 with
  | opts a =>
    cases o2 with
    | opts b =>
      cases a <;> cases b <;> simp [sameField, sameExpField] at h <;> rfl
    | maxRetries n => simp [sameField] at h
  | maxRetries m =>
    cases o2 with
    | opts b => simp [sameField] at h
    | maxRetries n => rfl

/-- C1: with initial interval 10s, randomization factor 0, max retries 5 and
every other option at its default (multiplier 1.5), the duration-mode
exponential sequence yields exactly the pairs
(0,10s),(1,15s),(2,22.5s),(3,33.75s),(4,50.625s) and then terminates — for
every jitter stream, since a randomization factor of 0 removes the jitter. -/
theorem claim1_exponential_duration_sequence (J : Nat → ℚ) :
    runDuration zeroElapsed J takeAll 6 0
      (NewExponentialDuration [.opts (.withInitialInterval 10000000000),
        .opts (.withRandomizationFactor 0), .maxRetries 5]) =
    ([(0, 10000000000), (1, 15000000000), (2, 22500000000),
      (3, 33750000000), (4, 50625000000)], true) := by
  simp only [show (6 : Nat) = 0 + 1 + 1 + 1 + 1 + 1 + 1 from rfl]
  norm_num [runDuration, NewExponentialDuration, newExponentialOption,
    ExponentialOption.applyToExponentialOption, exponentialOption.New,
    NewExponentialBackOff, ExpOpts.apply, defaultExpParams,
    ExponentialBackOff.ofParams, ExponentialBackOff.next,
    ExponentialBackOff.incrementCurrentInterval, jitteredInterval,
    BackOff.nextBackOff, zeroElapsed, takeAll, Stop, min_def, max_def]

/-- C2: for every negative interval and every max-retry count, the
attempt-index sequence of `NewConstant interval [WithMaxRetries maxRetries]`
yields exactly the single index 0 and then ends — whatever the consumer and
the cancellation signal do. -/
theorem claim2_never_retry_single_index (interval : Int) (m : Nat)
    (E : Nat → Int) (J : Nat → ℚ) (c cc : Nat → Bool) (fuel : Nat)
    (hneg : interval < 0) (hfuel : 1 ≤ fuel) :
    yieldsOf (retryLoop E J c cc fuel 0
        (NewConstant interval [.maxRetries m])).1 = [0] ∧
      (retryLoop E J c cc fuel 0
        (NewConstant interval [.maxRetries m])).2 = true := by
  have hnew : NewConstant interval [.maxRetries m] = .stopBackOff := by
    simp only [NewConstant]
    exact constantOption_New_of_neg _
      (by simpa [newConstantOption_Interval] using hneg)
  obtain ⟨f, rfl⟩ : ∃ f, fuel = f + 1 := ⟨fuel - 1, by omega⟩
  rw [hnew, retryLoop]
  by_cases hc : c 0
  · simp [hc, BackOff.nextBackOff, yieldsOf]
  · simp [hc, yieldsOf]

theorem claim2_witness :
    yieldsOf (retryLoop zeroElapsed zeroJitter alwaysConsume neverCancel 5 0
        (NewConstant (-3) [.maxRetries 9])).1 = [0] ∧
      (retryLoop zeroElapsed zeroJitter alwaysConsume neverCancel 5 0
        (NewConstant (-3) [.maxRetries 9])).2 = true :=
  claim2_never_retry_single_index (-3) 9 zeroElapsed zeroJitter
    alwaysConsume neverCancel 5 (by decide) (by decide)

/-- C3: the duration-mode constant sequence with interval 42s and max
retries 5 yields exactly five pairs, indices 0 through 4, each with duration
42s, and then terminates — for every elapsed-time and jitter stream. -/
theorem claim3_constant_duration_sequence (E : Nat → Int) (J : Nat → ℚ) :
    runDuration E J takeAll 6 0
      (NewConstantDuration 42000000000 [.maxRetries 5]) =
    ([(0, 42000000000), (1, 42000000000), (2, 42000000000),
      (3, 42000000000), (4, 42000000000)], true) := by
  simp only [show (6 : Nat) = 0 + 1 + 1 + 1 + 1 + 1 + 1 from rfl]
  norm_num [runDuration, NewConstantDuration, newConstantOption,
    ConstantOption.applyToConstantOption, constantOption.New,
    BackOff.nextBackOff, takeAll, Stop]

/-- C4: for every `N > 0`, the attempt-index sequence of
`NewConstant 0 [WithMaxRetries N]` yields exactly the `N + 1` indices
`0 .. N` in order and then ends, with zero cumulative waiting. -/
theorem claim4_no_delay_full_range (N : Nat) (E : Nat → Int) (J : Nat → ℚ)
    (hN : 0 < N) :
    ∃ tr, retryLoop E J alwaysConsume neverCancel (N + 1) 0
        (NewConstant 0 [.maxRetries N]) = (tr, true) ∧
      yieldsOf tr = List.range (N + 1) ∧ (waitsOf tr).sum = 0 := by
  have hnew : NewConstant 0 [.maxRetries N] =
      .withMaxRetries .zeroBackOff N 0 := by
    simp [NewConstant, newConstantOption, ConstantOption.applyToConstantOption,
      constantOption.New, hN]
  obtain ⟨tr, htr, hy, hw⟩ := retryLoop_zeroTries E J N hN N 0 0 (by omega)
  refine ⟨tr, by rw [hnew]; exact htr, ?_, by simp [hw]⟩
  rw [hy, List.range_eq_range']

theorem claim4_witness :
    ∃ tr, retryLoop zeroElapsed zeroJitter alwaysConsume neverCancel 4 0
        (NewConstant 0 [.maxRetries 3]) = (tr, true) ∧
      yieldsOf tr = List.range 4 ∧ (waitsOf tr).sum = 0 :=
  claim4_no_delay_full_range 3 zeroElapsed zeroJitter (by decide)

/-- C5: a max-retry count of 0 disables the limiter: both constructors use
the underlying strategy unwrapped, and for the no-delay and fixed-delay
strategies the sequence then never stops on its own — for every fuel bound
`n` it yields the first `n` indices with the loop still running. -/
theorem claim5_max_retries_zero_passthrough :
    (∀ (interval : Int) (opts : List ConstantOption),
        (newConstantOption interval opts).MaxRetries = 0 →
        (newConstantOption interval opts).New =
          (if interval < 0 then .stopBackOff
           else if interval = 0 then .zeroBackOff
           else .constantBackOff interval)) ∧
    (∀ opts : List ExponentialOption,
        (newExponentialOption opts).MaxRetries = 0 →
        (newExponentialOption opts).New =
          .exponential (ExponentialBackOff.ofParams
            (NewExponentialBackOff (newExponentialOption opts).Options))) ∧
    (∀ (interval : Int) (opts : List ConstantOption) (E : Nat → Int)
        (J : Nat → ℚ) (n : Nat), 0 ≤ interval →
        (newConstantOption interval opts).MaxRetries = 0 →
        ∃ tr, retryLoop E J alwaysConsume neverCancel n 0
            ((newConstantOption interval opts).New) = (tr, false) ∧
          yieldsOf tr = List.range n) :=
  ⟨constantOption_New_passthrough, exponentialOption_New_passthrough,
    fun interval opts E J n h0 h =>
      constant_passthrough_unbounded interval opts E J n h0 h⟩

theorem claim5_witness :
    ((newConstantOption 5 []).New =
      (if (5 : Int) < 0 then .stopBackOff
       else if (5 : Int) = 0 then .zeroBackOff
       else .constantBackOff 5)) ∧
    ((newExponentialOption []).New =
      .exponential (ExponentialBackOff.ofParams
        (NewExponentialBackOff (newExponentialOption []).Options))) ∧
    (∃ tr, retryLoop zeroElapsed zeroJitter alwaysConsume neverCancel 4 0
        ((newConstantOption 0 []).New) = (tr, false) ∧
      yieldsOf tr = List.range 4) :=
  ⟨claim5_max_retries_zero_passthrough.1 5 [] (by decide),
    claim5_max_retries_zero_passthrough.2.1 [] (by decide),
    claim5_max_retries_zero_passthrough.2.2 0 [] zeroElapsed zeroJitter 4
      (by decide) (by decide)⟩

/-- C6: options are applied in the order given and the later of two options
setting the same field wins: appending `o1` before `o2` builds the same
policy configuration as passing `o2` alone, for the constant constructor
(whose only option sets the max-retry count) and for the exponential
constructor whenever the two options target the same field. -/
theorem claim6_options_last_write_wins :
    (∀ (interval : Int) (o1 o2 : ConstantOption),
        newConstantOption interval [o1, o2] =
          newConstantOption interval [o2]) ∧
    (∀ o1 o2 : ExponentialOption, sameField o1 o2 = true →
        (newExponentialOption [o1, o2]).New =
          (newExponentialOption [o2]).New) :=
  ⟨newConstantOption_lastWins, newExponentialOption_New_lastWins⟩

theorem claim6_witness :
    (newExponentialOption [.opts (.withMultiplier 2),
        .opts (.withMultiplier 3)]).New =
      (newExponentialOption [.opts (.withMultiplier 3)]).New :=
  claim6_options_last_write_wins.2 (.opts (.withMultiplier 2))
    (.opts (.withMultiplier 3)) (by decide)

/-- C7: in attempt-index mode, when the consumer declines more elements
after receiving index `j`, the iteration ends immediately: the run equals a
trace that ends with the yield of `j`, the strategy was consulted exactly
`j` times (once before each of the yields `1 .. j`) and exactly `j`
suspensions occurred — none for index `j + 1`. -/
theorem claim7_early_termination (j : Nat) (b : BackOff) (E : Nat → Int)
    (J : Nat → ℚ) (h : ∀ n < j, delayFrom E J 0 b n ≠ Stop) :
    retryLoop E J (fun k => decide (k < j)) neverCancel (j + 1) 0 b =
        (stopTrace E J j 0 b, true) ∧
      yieldsOf (stopTrace E J j 0 b) = List.range (j + 1) ∧
      (nextsOf (stopTrace E J j 0 b)).length = j ∧
      (waitsOf (stopTrace E J j 0 b)).length = j := by
  refine ⟨?_, ?_, nextsOf_stopTrace_length E J j 0 b,
    waitsOf_stopTrace_length E J j 0 b⟩
  · simpa using retryLoop_stopConsumer E J j 0 b h
  · rw [yieldsOf_stopTrace, List.range_eq_range']

theorem claim7_witness :
    retryLoop zeroElapsed zeroJitter (fun k => decide (k < 2)) neverCancel 3 0
        (.constantBackOff 7) =
      (stopTrace zeroElapsed zeroJitter 2 0 (.constantBackOff 7), true) ∧
    yieldsOf (stopTrace zeroElapsed zeroJitter 2 0 (.constantBackOff 7)) =
      List.range 3 ∧
    (nextsOf (stopTrace zeroElapsed zeroJitter 2 0
      (.constantBackOff 7))).length = 2 ∧
    (waitsOf (stopTrace zeroElapsed zeroJitter 2 0
      (.constantBackOff 7))).length = 2 :=
  claim7_early_termination 2 (.constantBackOff 7) zeroElapsed zeroJitter
    (by decide)

/-- C8: in attempt-index mode, when the cancellation signal fires during the
suspension that precedes index `k` (and the strategy does not stop first),
the run ends then and there: the consumer observes exactly the indices
`0 .. k - 1` and never index `k` or beyond. -/
theorem claim8_cancellation_prefix (k : Nat) (b : BackOff) (E : Nat → Int)
    (J : Nat → ℚ) (hk : 1 ≤ k) (h : ∀ n < k, delayFrom E J 0 b n ≠ Stop) :
    ∃ tr, retryLoop E J alwaysConsume (fun n => decide (n = k)) k 0 b =
        (tr, true) ∧
      yieldsOf tr = List.range k := by
  obtain ⟨m, rfl⟩ : ∃ m, k = m + 1 := ⟨k - 1, by omega⟩
  obtain ⟨tr, htr, hy⟩ := retryLoop_cancelAt E J m 0 b h
  exact ⟨tr, by simpa using htr, by rw [hy, List.range_eq_range']⟩

theorem claim8_witness :
    ∃ tr, retryLoop zeroElapsed zeroJitter alwaysConsume
        (fun n => decide (n = 3)) 3 0 .zeroBackOff = (tr, true) ∧
      yieldsOf tr = List.range 3 :=
  claim8_cancellation_prefix 3 .zeroBackOff zeroElapsed zeroJitter
    (by decide) (by decide)

/-- C9: construction never fails: for every interval and every combination
of options — including unvalidated ones such as a negative multiplier — the
constructors produce a strategy whose attempt-index run is total and
well-formed: the consumer always observes a consecutive prefix `0 .. n - 1`
of the naturals, and exhaustion shows up only as the sequence ending. -/
theorem claim9_construction_never_fails :
    (∀ (interval : Int) (copts : List ConstantOption) (E : Nat → Int)
        (J : Nat → ℚ) (c cc : Nat → Bool) (fuel : Nat),
        ∃ n, yieldsOf (retryLoop E J c cc fuel 0
            (NewConstant interval copts)).1 = List.range n) ∧
    (∀ (eopts : List ExponentialOption) (E : Nat → Int) (J : Nat → ℚ)
        (c cc : Nat → Bool) (fuel : Nat),
        ∃ n, yieldsOf (retryLoop E J c cc fuel 0
            (NewExponential eopts)).1 = List.range n) ∧
    (∀ m : ℚ, NewExponential [.opts (.withMultiplier m)] =
        .exponential (ExponentialBackOff.ofParams
          { defaultExpParams with Multiplier := m })) := by
  refine ⟨fun interval copts E J c cc fuel => ?_,
    fun eopts E J c cc fuel => ?_, fun m => rfl⟩
  · obtain ⟨n, hn⟩ := retryLoop_yields_consecutive E J c cc fuel 0
      (NewConstant interval copts)
    exact ⟨n, by rw [hn, List.range_eq_range']⟩
  · obtain ⟨n, hn⟩ := retryLoop_yields_consecutive E J c cc fuel 0
      (NewExponential eopts)
    exact ⟨n, by rw [hn, List.range_eq_range']⟩

/-- C10: in duration mode the stop check precedes the first yield: for every
negative interval and any options the duration-mode sequence is empty, while
the attempt-index sequence of the same policy still yields index 0 before
stopping. -/
theorem claim10_duration_empty_on_negative (interval : Int)
    (opts : List ConstantOption) (E : Nat → Int) (J : Nat → ℚ)
    (c : Nat → Int → Bool) (c2 cc : Nat → Bool) (fuel : Nat)
    (hneg : interval < 0) :
    runDuration E J c (fuel + 1) 0 (NewConstantDuration interval opts) =
        ([], true) ∧
      yieldsOf (retryLoop E J c2 cc (fuel + 1) 0
        (NewConstant interval opts)).1 = [0] := by
  have hnew : (newConstantOption interval opts).New = .stopBackOff :=
    constantOption_New_of_neg _
      (by simpa [newConstantOption_Interval] using hneg)
  constructor
  · simp only [NewConstantDuration, hnew]
    rw [runDuration]
    simp [BackOff.nextBackOff]
  · simp only [NewConstant, hnew]
    rw [retryLoop]
    by_cases hc : c2 0
    · simp [hc, BackOff.nextBackOff, yieldsOf]
    · simp [hc, yieldsOf]

theorem claim10_witness :
    runDuration zeroElapsed zeroJitter takeAll 5 0
        (NewConstantDuration (-1) [.maxRetries 5]) = ([], true) ∧
      yieldsOf (retryLoop zeroElapsed zeroJitter alwaysConsume neverCancel 5 0
        (NewConstant (-1) [.maxRetries 5])).1 = [0] :=
  claim10_duration_empty_on_negative (-1) [.maxRetries 5] zeroElapsed
    zeroJitter takeAll alwaysConsume neverCancel 4 (by decide)

end Backoff
